import Mathlib

/-!
Verification of the hpo_similarity repository.

Part 1 models the ontology / information-content similarity engine
(the `ICSimilarity` object exercised by tests/test_ic_similarity.py).
Its implementation files (hpo_similarity/ontology.py and
hpo_similarity/similarity.py) are not part of the source tree here, so the
engine is modelled from the specification (spec.md sections 4.2-4.4).

Part 2 embeds, directly from src/load_files.py, the `FamilyHPO.format_hpo`
method and the `load_candidate_genes` loader.  Python strings are modelled
as lists of characters so that the string primitives (`strip`, `split`,
`in`) can be given explicit executable definitions.
-/

/-- Modelled from the spec: the OntologyGraph of section 4.2 (the graph
built by `open_ontology`, whose implementation is not under src/).  It
carries the set of known term identifiers, the distinguished root
identifier, and the memoized ancestor-closure function `ancestors_of`
("returns term_id itself plus every term reachable by following parent
links to the root"). -/
structure OntologyGraph where
  terms : Finset String
  root : String
  ancestors_of : String → Finset String

/-- Modelled from the spec: ancestor closure computed from child-to-parent
links ("term_id itself plus every term reachable by following parent
links"); the fuel argument bounds the path length, which suffices on a
finite DAG. -/
def ancestorsFuel (parents : String → List String) : Nat → String → Finset String
  | 0, t => {t}
  | n + 1, t =>
    insert t ((parents t).foldr (fun p acc => ancestorsFuel parents n p ∪ acc) ∅)

/-- Modelled from the spec: the union of `ancestors_of t` over every term
`t` asserted for one person (section 4.3: "compute the UNION of
ancestors_of(t) over every term t asserted for that person"). -/
def personClosure (g : OntologyGraph) (terms : List String) : Finset String :=
  terms.foldr (fun t acc => g.ancestors_of t ∪ acc) ∅

/-- Modelled from the spec: `tally_hpo_terms` (section 4.3).  For each
person the counts of every identifier in that person's ancestor-closure
union are incremented by exactly one. -/
def tally_hpo_terms (g : OntologyGraph) (counts : String → Nat) :
    List (List String) → (String → Nat)
  | [] => counts
  | person :: rest =>
      tally_hpo_terms g
        (fun t => if t ∈ personClosure g person then counts t + 1 else counts t) rest

/-- Modelled from the spec: `get_term_count` (section 4.2) after tallying
the given cohort, starting from all-zero counts. -/
def get_term_count (g : OntologyGraph) (cohort : List (List String)) (t : String) : Nat :=
  tally_hpo_terms g (fun _ => 0) cohort t

/-- Modelled from the spec: the information-content value
`-ln(get_term_count(t) / get_term_count(root))` (section 4.4), as a real
number. -/
noncomputable def icVal (g : OntologyGraph) (cohort : List (List String)) (t : String) : ℝ :=
  -Real.log ((get_term_count g cohort t : ℝ) / (get_term_count g cohort g.root : ℝ))

/-- Modelled from the spec: `calculate_information_content` (section 4.4).
A zero count is degenerate ("must fail with a domain error or defined
sentinel; do not silently return 0"): the sentinel is `⊥`. -/
noncomputable def calculate_information_content (g : OntologyGraph)
    (cohort : List (List String)) (t : String) : WithBot ℝ :=
  if get_term_count g cohort t = 0 then ⊥ else (icVal g cohort t : WithBot ℝ)

/-- Modelled from the spec: `get_most_informative_ic` (section 4.4):
the maximum information content over the intersection of the two ancestor
closures; a degenerate (zero-count) common ancestor makes the underlying
IC computation fail, which propagates as the `⊥` sentinel. -/
noncomputable def get_most_informative_ic (g : OntologyGraph)
    (cohort : List (List String)) (term_1 term_2 : String) : WithBot ℝ :=
  if ∀ u ∈ g.ancestors_of term_1 ∩ g.ancestors_of term_2,
      get_term_count g cohort u ≠ 0 then
    ((g.ancestors_of term_1 ∩ g.ancestors_of term_2).image (icVal g cohort)).max
  else ⊥

/-- Ancestor closures of known terms are transitively closed: an ancestor's
ancestors are ancestors (spec section 3: "Ancestor relation is the
transitive closure of is_a"). -/
@[reducible] def OntologyGraph.AncClosed (g : OntologyGraph) : Prop :=
  ∀ s ∈ g.terms, ∀ u ∈ g.ancestors_of s, g.ancestors_of u ⊆ g.ancestors_of s

/-- Every term asserted for any cohort member is a known term of the graph. -/
@[reducible] def ValidCohort (g : OntologyGraph) (cohort : List (List String)) : Prop :=
  ∀ p ∈ cohort, ∀ t ∈ p, t ∈ g.terms

/-- Modelled from the spec: parent links of the fixture ontology
(tests/data/obo.txt, not under src/), as described in spec section 8:
HP:0000118 is an ancestor of HP:0000707 and HP:0000924, HP:0000001 is the
root ancestor of all, and HP:0002011 descends from HP:0000707 (forced by
the expected counts). -/
def fixtureParents : String → List String
  | "HP:0000118" => ["HP:0000001"]
  | "HP:0000707" => ["HP:0000118"]
  | "HP:0000924" => ["HP:0000118"]
  | "HP:0002011" => ["HP:0000707"]
  | _ => []

/-- The fixture ontology graph of the unit tests. -/
def fixtureGraph : OntologyGraph where
  terms := {"HP:0000001", "HP:0000118", "HP:0000707", "HP:0000924", "HP:0002011"}
  root := "HP:0000001"
  ancestors_of := ancestorsFuel fixtureParents 5

/-- The three-person cohort from TestICSimilarityPy.setUp. -/
def fixtureCohort : List (List String) :=
  [["HP:0000924"], ["HP:0000118", "HP:0002011"], ["HP:0000707", "HP:0002011"]]

/-- Python whitespace characters, as removed by str.strip() in
FamilyHPO.format_hpo (src/load_files.py line 81). -/
def pyIsSpace (c : Char) : Bool :=
  c = ' ' || c = '\t' || c = '\n' || c = '\r' || c = '\x0b' || c = '\x0c'

/-- Python str.strip(): drop leading and trailing whitespace.  Python
strings are modelled as lists of characters. -/
def pyStrip (s : List Char) : List Char :=
  ((s.dropWhile pyIsSpace).reverse.dropWhile pyIsSpace).reverse

/-- Python str.split(sep) for a one-character separator: the list of
maximal separator-free chunks; the empty string yields one empty chunk. -/
def pySplit (sep : Char) : List Char → List (List Char)
  | [] => [[]]
  | c :: cs =>
    if c = sep then [] :: pySplit sep cs
    else
      match pySplit sep cs with
      | [] => [[c]]
      | g :: gs => (c :: g) :: gs

/-- FamilyHPO.format_hpo from src/load_files.py (lines 71-93): strip the
field; a bare "." means no terms recorded (None); otherwise split on "|"
when one occurs, else wrap the single stripped string in a list. -/
def format_hpo (hpo_terms : List Char) : Option (List (List Char)) :=
  if pyStrip hpo_terms = ['.'] then none
  else if (pyStrip hpo_terms).contains '|' then
    some (pySplit '|' (pyStrip hpo_terms))
  else some [pyStrip hpo_terms]

/-- The pair of dictionaries built by load_candidate_genes, with their key
sets; a dictionary is modelled as a total function defaulting to the empty
set off its key set. -/
structure CandidateGenes where
  genes_keys : Finset String
  probands_keys : Finset String
  genes_index : String → Finset (String × String)
  probands_index : String → Finset (String × String)

/-- One loop iteration of load_candidate_genes (src/load_files.py lines
205-222) on a parsed row (proband_ID, gene, inheritance): create the key
with an empty set when absent, then add (proband_ID, inheritance) under
the gene and (gene, inheritance) under the proband. -/
def addCandidateRow (st : CandidateGenes) (row : String × String × String) :
    CandidateGenes where
  genes_keys := insert row.2.1 st.genes_keys
  probands_keys := insert row.1 st.probands_keys
  genes_index := fun g =>
    if g = row.2.1 then insert (row.1, row.2.2) (st.genes_index g)
    else st.genes_index g
  probands_index := fun p =>
    if p = row.1 then insert (row.2.1, row.2.2) (st.probands_index p)
    else st.probands_index p

/-- load_candidate_genes from src/load_files.py (lines 191-224), starting
from two empty dictionaries and folding over the parsed
(proband, gene, inheritance) rows of the file. -/
def load_candidate_genes (rows : List (String × String × String)) :
    CandidateGenes :=
  rows.foldl addCandidateRow ⟨∅, ∅, fun _ => ∅, fun _ => ∅⟩

/-- Invariant tying the two candidate-gene dictionaries together: they are
inverse views of one relation and a key is present exactly when its set is
non-empty. -/
def CGInv (st : CandidateGenes) : Prop :=
  (∀ g p i, (p, i) ∈ st.genes_index g ↔ (g, i) ∈ st.probands_index p) ∧
  (∀ g, (st.genes_index g).Nonempty ↔ g ∈ st.genes_keys) ∧
  (∀ p, (st.probands_index p).Nonempty ↔ p ∈ st.probands_keys)

theorem tally_hpo_terms_eq (g : OntologyGraph) (counts : String → Nat)
    (cohort : List (List String)) (t : String) :
    tally_hpo_terms g counts cohort t =
      counts t + (cohort.filter (fun p => t ∈ personClosure g p)).length := by
  induction cohort generalizing counts with
  | nil => simp [tally_hpo_terms]
  | cons person rest ih =>
      simp only [tally_hpo_terms, ih, List.filter_cons]
      by_cases h : t ∈ personClosure g person
      · simp [h]; omega
      · simp [h]

theorem get_term_count_eq (g : OntologyGraph) (cohort : List (List String)) (t : String) :
    get_term_count g cohort t =
      (cohort.filter (fun p => t ∈ personClosure g p)).length := by
  simp [get_term_count, tally_hpo_terms_eq]

theorem mem_personClosure (g : OntologyGraph) (terms : List String) (u : String) :
    u ∈ personClosure g terms ↔ ∃ t ∈ terms, u ∈ g.ancestors_of t := by
  induction terms with
  | nil => simp [personClosure]
  | cons s rest ih =>
      simp only [personClosure, List.foldr_cons, Finset.mem_union, List.mem_cons]
      constructor
      · rintro (h | h)
        · exact ⟨s, Or.inl rfl, h⟩
        · obtain ⟨t, ht, hu⟩ := (ih).1 h
          exact ⟨t, Or.inr ht, hu⟩
      · rintro ⟨t, ht | ht, hu⟩
        · exact Or.inl (ht ▸ hu)
        · exact Or.inr ((ih).2 ⟨t, ht, hu⟩)

theorem count_mono (g : OntologyGraph) (cohort : List (List String))
    (hg : g.AncClosed) (hc : ValidCohort g cohort) {t a : String}
    (ha : a ∈ g.ancestors_of t) :
    get_term_count g cohort t ≤ get_term_count g cohort a := by
  rw [get_term_count_eq, get_term_count_eq]
  induction cohort with
  | nil => simp
  | cons person rest ih =>
      have hperson : ∀ q ∈ rest, ∀ u ∈ q, u ∈ g.terms := by
        intro q hq u hu
        exact hc q (List.mem_cons_of_mem _ hq) u hu
      have step : (t ∈ personClosure g person) → (a ∈ personClosure g person) := by
        intro hmem
        obtain ⟨s, hs, hts⟩ := (mem_personClosure g person t).1 hmem
        have hsterm : s ∈ g.terms := hc person (List.mem_cons_self _ _) s hs
        have : a ∈ g.ancestors_of s := hg s hsterm t hts ha
        exact (mem_personClosure g person a).2 ⟨s, hs, this⟩
      simp only [List.filter_cons]
      have hrest := ih hperson
      by_cases h : t ∈ personClosure g person
      · have h' := step h
        simp [h, h']
        omega
      · by_cases h' : a ∈ personClosure g person
        · simp [h, h']
          omega
        · simp [h, h']
          omega

theorem icVal_antitone (g : OntologyGraph) (cohort : List (List String)) {t a : String}
    (h0 : get_term_count g cohort t ≠ 0)
    (hle : get_term_count g cohort t ≤ get_term_count g cohort a) :
    icVal g cohort a ≤ icVal g cohort t := by
  unfold icVal
  rcases Nat.eq_zero_or_pos (get_term_count g cohort g.root) with hr | hr
  · rw [hr]
    simp
  · apply neg_le_neg
    have hrpos : (0 : ℝ) < (get_term_count g cohort g.root : ℝ) := by
      exact_mod_cast hr
    have htpos : (0 : ℝ) < (get_term_count g cohort t : ℝ) := by
      have : 0 < get_term_count g cohort t := Nat.pos_of_ne_zero h0
      exact_mod_cast this
    apply Real.log_le_log (div_pos htpos hrpos)
    apply div_le_div_of_nonneg_right _ hrpos.le
    exact_mod_cast hle

/-- C1: after a tally, every term with a positive count has information
content exactly the negative natural logarithm of its count divided by the
root's count, and any term whose count equals the root's count (the root
itself in particular) has information content exactly 0. -/
theorem ic_is_neg_log_ratio (g : OntologyGraph) (cohort : List (List String))
    (t : String) (h : 0 < get_term_count g cohort t) :
    calculate_information_content g cohort t =
      ((-Real.log ((get_term_count g cohort t : ℝ) /
        (get_term_count g cohort g.root : ℝ)) : ℝ) : WithBot ℝ) ∧
    (get_term_count g cohort t = get_term_count g cohort g.root →
      calculate_information_content g cohort t = ((0 : ℝ) : WithBot ℝ)) := by
  have h0 : get_term_count g cohort t ≠ 0 := Nat.pos_iff_ne_zero.mp h
  constructor
  · simp [calculate_information_content, h0, icVal]
  · intro heq
    have hratio : ((get_term_count g cohort t : ℝ) /
        (get_term_count g cohort g.root : ℝ)) = 1 := by
      rw [← heq]
      exact div_self (by exact_mod_cast h0)
    simp [calculate_information_content, h0, icVal, hratio]

theorem ic_is_neg_log_ratio_witness :
    0 < get_term_count fixtureGraph fixtureCohort "HP:0000118" ∧
    (calculate_information_content fixtureGraph fixtureCohort "HP:0000118" =
      ((-Real.log ((get_term_count fixtureGraph fixtureCohort "HP:0000118" : ℝ) /
        (get_term_count fixtureGraph fixtureCohort fixtureGraph.root : ℝ)) : ℝ) : WithBot ℝ) ∧
    (get_term_count fixtureGraph fixtureCohort "HP:0000118" =
        get_term_count fixtureGraph fixtureCohort fixtureGraph.root →
      calculate_information_content fixtureGraph fixtureCohort "HP:0000118" =
        ((0 : ℝ) : WithBot ℝ))) :=
  ⟨by decide, ic_is_neg_log_ratio fixtureGraph fixtureCohort "HP:0000118" (by decide)⟩

/-- C3: tallying one more person increments the count of exactly the terms
in the union of the ancestor closures of that person's asserted terms, each
by exactly one; every other term's count is unchanged, so one person never
contributes more than +1 to any term, whatever ancestors their asserted
terms share and however many parent paths reach an ancestor. -/
theorem tally_adds_one_per_closure_member (g : OntologyGraph)
    (cohort : List (List String)) (person : List String) (t : String) :
    get_term_count g (cohort ++ [person]) t =
      get_term_count g cohort t +
        (if t ∈ personClosure g person then 1 else 0) := by
  rw [get_term_count_eq, get_term_count_eq, List.filter_append,
    List.length_append]
  by_cases h : t ∈ personClosure g person <;> simp [List.filter_cons, h]

/-- C4: after any tally, the root's count equals the number of cohort
members whose term set was non-empty, provided the root lies in the
ancestor closure of every asserted term. -/
theorem root_count_eq_tallied_members (g : OntologyGraph)
    (cohort : List (List String))
    (hroot : ∀ p ∈ cohort, ∀ s ∈ p, g.root ∈ g.ancestors_of s) :
    get_term_count g cohort g.root =
      (cohort.filter (fun p => !p.isEmpty)).length := by
  rw [get_term_count_eq]
  congr 1
  apply List.filter_congr
  intro p hp
  cases p with
  | nil => simp [personClosure]
  | cons s rest =>
      simp only [List.isEmpty_cons, Bool.not_false, decide_eq_true_eq]
      exact (mem_personClosure g (s :: rest) g.root).2
        ⟨s, List.mem_cons_self _ _, hroot _ hp s (List.mem_cons_self _ _)⟩

theorem root_count_eq_tallied_members_witness :
    (∀ p ∈ fixtureCohort, ∀ s ∈ p,
        fixtureGraph.root ∈ fixtureGraph.ancestors_of s) ∧
    get_term_count fixtureGraph fixtureCohort fixtureGraph.root =
      (fixtureCohort.filter (fun p => !p.isEmpty)).length :=
  ⟨by decide, root_count_eq_tallied_members fixtureGraph fixtureCohort (by decide)⟩

/-- C5: after any tally, a strict ancestor of a term is counted at least as
often as the term, and whenever the term's information content is defined
(non-zero count) the ancestor's information content is no larger: an
ancestor is never more informative than its descendant. -/
theorem ancestor_never_more_informative (g : OntologyGraph)
    (cohort : List (List String)) (hg : g.AncClosed)
    (hc : ValidCohort g cohort) {t a : String}
    (ha : a ∈ g.ancestors_of t) (hne : a ≠ t) :
    get_term_count g cohort t ≤ get_term_count g cohort a ∧
    (get_term_count g cohort t ≠ 0 →
      calculate_information_content g cohort a ≤
        calculate_information_content g cohort t) := by
  have hcount := count_mono g cohort hg hc ha
  refine ⟨hcount, fun h0 => ?_⟩
  have ha0 : get_term_count g cohort a ≠ 0 := by omega
  simp only [calculate_information_content, if_neg h0, if_neg ha0,
    WithBot.coe_le_coe]
  exact icVal_antitone g cohort h0 hcount

theorem ancestor_never_more_informative_witness :
    fixtureGraph.AncClosed ∧ ValidCohort fixtureGraph fixtureCohort ∧
    "HP:0000118" ∈ fixtureGraph.ancestors_of "HP:0000924" ∧
    ("HP:0000118" : String) ≠ "HP:0000924" ∧
    get_term_count fixtureGraph fixtureCohort "HP:0000924" ≤
      get_term_count fixtureGraph fixtureCohort "HP:0000118" ∧
    calculate_information_content fixtureGraph fixtureCohort "HP:0000118" ≤
      calculate_information_content fixtureGraph fixtureCohort "HP:0000924" :=
  ⟨by decide, by decide, by decide, by decide,
    (ancestor_never_more_informative fixtureGraph fixtureCohort (by decide)
      (by decide) (by decide) (by decide)).1,
    (ancestor_never_more_informative fixtureGraph fixtureCohort (by decide)
      (by decide) (by decide) (by decide)).2 (by decide)⟩

/-- C6: the pairwise similarity score is symmetric: the intersection of the
two ancestor closures does not depend on the argument order, so neither
does the maximal information content over it. -/
theorem get_most_informative_ic_comm (g : OntologyGraph)
    (cohort : List (List String)) (a b : String) :
    get_most_informative_ic g cohort a b =
      get_most_informative_ic g cohort b a := by
  unfold get_most_informative_ic
  rw [Finset.inter_comm]

/-- C8: for a known term whose tallied count is zero the information
content computation fails with the domain-error sentinel; it never
silently coerces the undefined logarithm to the real value 0. -/
theorem zero_count_ic_is_domain_error (g : OntologyGraph)
    (cohort : List (List String)) (t : String) (ht : t ∈ g.terms)
    (h0 : get_term_count g cohort t = 0) :
    calculate_information_content g cohort t = ⊥ ∧
    calculate_information_content g cohort t ≠ ((0 : ℝ) : WithBot ℝ) := by
  refine ⟨by simp [calculate_information_content, h0], ?_⟩
  simp [calculate_information_content, h0]

theorem zero_count_ic_is_domain_error_witness :
    ("HP:0002011" : String) ∈ fixtureGraph.terms ∧
    get_term_count fixtureGraph [["HP:0000924"]] "HP:0002011" = 0 ∧
    (calculate_information_content fixtureGraph [["HP:0000924"]] "HP:0002011" = ⊥ ∧
    calculate_information_content fixtureGraph [["HP:0000924"]] "HP:0002011" ≠
      ((0 : ℝ) : WithBot ℝ)) :=
  ⟨by decide, by decide,
    zero_count_ic_is_domain_error fixtureGraph [["HP:0000924"]] "HP:0002011"
      (by decide) (by decide)⟩

theorem fixture_root_count : get_term_count fixtureGraph fixtureCohort fixtureGraph.root = 3 := by
  decide

theorem fixture_icVal_root : icVal fixtureGraph fixtureCohort "HP:0000001" = 0 := by
  unfold icVal
  rw [fixture_root_count,
    show get_term_count fixtureGraph fixtureCohort "HP:0000001" = 3 from by decide]
  norm_num

theorem fixture_icVal_118 : icVal fixtureGraph fixtureCohort "HP:0000118" = 0 := by
  unfold icVal
  rw [fixture_root_count,
    show get_term_count fixtureGraph fixtureCohort "HP:0000118" = 3 from by decide]
  norm_num

theorem fixture_icVal_707 :
    icVal fixtureGraph fixtureCohort "HP:0000707" = -Real.log (2 / 3) := by
  unfold icVal
  rw [fixture_root_count,
    show get_term_count fixtureGraph fixtureCohort "HP:0000707" = 2 from by decide]
  norm_num

theorem fixture_icVal_924 :
    icVal fixtureGraph fixtureCohort "HP:0000924" = -Real.log (1 / 3) := by
  unfold icVal
  rw [fixture_root_count,
    show get_term_count fixtureGraph fixtureCohort "HP:0000924" = 1 from by decide]
  norm_num

/-- C7: reflexive similarity follows from the general rule: for a known
term in a valid tally, the most informative common ancestor of a term with
itself is the term itself, so the score equals the term's own information
content (including the degenerate case, where both sides fail). -/
theorem get_most_informative_ic_self (g : OntologyGraph)
    (cohort : List (List String)) (t : String) (hg : g.AncClosed)
    (hc : ValidCohort g cohort) (hself : t ∈ g.ancestors_of t) :
    get_most_informative_ic g cohort t t =
      calculate_information_content g cohort t := by
  unfold get_most_informative_ic calculate_information_content
  rw [Finset.inter_self]
  by_cases h0 : get_term_count g cohort t = 0
  · rw [if_neg, if_pos h0]
    push_neg
    exact ⟨t, hself, h0⟩
  · have hall : ∀ u ∈ g.ancestors_of t, get_term_count g cohort u ≠ 0 := by
      intro u hu
      have := count_mono g cohort hg hc hu
      omega
    rw [if_pos hall, if_neg h0]
    apply le_antisymm
    · apply Finset.max_le
      intro x hx
      obtain ⟨u, hu, rfl⟩ := Finset.mem_image.mp hx
      exact_mod_cast icVal_antitone g cohort h0 (count_mono g cohort hg hc hu)
    · exact Finset.le_max (Finset.mem_image_of_mem _ hself)

theorem get_most_informative_ic_self_witness :
    fixtureGraph.AncClosed ∧ ValidCohort fixtureGraph fixtureCohort ∧
    ("HP:0000924" : String) ∈ fixtureGraph.ancestors_of "HP:0000924" ∧
    get_most_informative_ic fixtureGraph fixtureCohort "HP:0000924" "HP:0000924" =
      calculate_information_content fixtureGraph fixtureCohort "HP:0000924" :=
  ⟨by decide, by decide, by decide,
    get_most_informative_ic_self fixtureGraph fixtureCohort "HP:0000924"
      (by decide) (by decide) (by decide)⟩

theorem fixture_gmi_707_924 :
    get_most_informative_ic fixtureGraph fixtureCohort "HP:0000707" "HP:0000924" =
      ((0 : ℝ) : WithBot ℝ) := by
  unfold get_most_informative_ic
  rw [show fixtureGraph.ancestors_of "HP:0000707" ∩ fixtureGraph.ancestors_of "HP:0000924" =
      {"HP:0000118", "HP:0000001"} from by decide]
  rw [if_pos (by decide)]
  rw [Finset.image_insert, Finset.image_singleton, fixture_icVal_118, fixture_icVal_root]
  simp [Finset.max_insert, Finset.max_singleton]

theorem fixture_gmi_707_2011 :
    get_most_informative_ic fixtureGraph fixtureCohort "HP:0000707" "HP:0002011" =
      ((-Real.log (2 / 3) : ℝ) : WithBot ℝ) := by
  unfold get_most_informative_ic
  rw [show fixtureGraph.ancestors_of "HP:0000707" ∩ fixtureGraph.ancestors_of "HP:0002011" =
      {"HP:0000707", "HP:0000118", "HP:0000001"} from by decide]
  rw [if_pos (by decide)]
  rw [Finset.image_insert, Finset.image_insert, Finset.image_singleton,
    fixture_icVal_707, fixture_icVal_118, fixture_icVal_root]
  have hnn : (0 : ℝ) ≤ -Real.log (2 / 3) := by
    have := Real.log_nonpos (by norm_num : (0:ℝ) ≤ 2/3) (by norm_num : (2:ℝ)/3 ≤ 1)
    linarith
  simp [Finset.max_insert, Finset.max_singleton, ← WithBot.coe_max, max_eq_left hnn]
  exact Real.log_nonpos (by norm_num) (by norm_num)

theorem fixture_gmi_924_924 :
    get_most_informative_ic fixtureGraph fixtureCohort "HP:0000924" "HP:0000924" =
      ((-Real.log (1 / 3) : ℝ) : WithBot ℝ) := by
  unfold get_most_informative_ic
  rw [show fixtureGraph.ancestors_of "HP:0000924" ∩ fixtureGraph.ancestors_of "HP:0000924" =
      {"HP:0000924", "HP:0000118", "HP:0000001"} from by decide]
  rw [if_pos (by decide)]
  rw [Finset.image_insert, Finset.image_insert, Finset.image_singleton,
    fixture_icVal_924, fixture_icVal_118, fixture_icVal_root]
  have hnn : (0 : ℝ) ≤ -Real.log (1 / 3) := by
    have := Real.log_nonpos (by norm_num : (0:ℝ) ≤ 1/3) (by norm_num : (1:ℝ)/3 ≤ 1)
    linarith
  simp [Finset.max_insert, Finset.max_singleton, ← WithBot.coe_max, max_eq_left hnn]
  exact Real.log_nonneg (by norm_num)

theorem fixture_ic_root :
    calculate_information_content fixtureGraph fixtureCohort "HP:0000001" =
      ((0 : ℝ) : WithBot ℝ) := by
  simp [calculate_information_content,
    show get_term_count fixtureGraph fixtureCohort "HP:0000001" = 3 from by decide,
    fixture_icVal_root]

theorem fixture_ic_924 :
    calculate_information_content fixtureGraph fixtureCohort "HP:0000924" =
      ((-Real.log (1 / 3) : ℝ) : WithBot ℝ) := by
  simp [calculate_information_content,
    show get_term_count fixtureGraph fixtureCohort "HP:0000924" = 1 from by decide,
    fixture_icVal_924]

theorem fixture_ic_707 :
    calculate_information_content fixtureGraph fixtureCohort "HP:0000707" =
      ((-Real.log (2 / 3) : ℝ) : WithBot ℝ) := by
  simp [calculate_information_content,
    show get_term_count fixtureGraph fixtureCohort "HP:0000707" = 2 from by decide,
    fixture_icVal_707]

/-- C2: on the fixture ontology with the three-person cohort the engine
produces exactly the counts 3, 2, 2, 1, 3 for HP:0000118, HP:0000707,
HP:0002011, HP:0000924, HP:0000001; information contents 0, -ln(1/3),
-ln(2/3) for HP:0000001, HP:0000924, HP:0000707; and most-informative
common-ancestor scores 0, -ln(2/3), -ln(1/3) for the pairs
(HP:0000707, HP:0000924), (HP:0000707, HP:0002011),
(HP:0000924, HP:0000924). -/
theorem fixture_scenario :
    get_term_count fixtureGraph fixtureCohort "HP:0000118" = 3 ∧
    get_term_count fixtureGraph fixtureCohort "HP:0000707" = 2 ∧
    get_term_count fixtureGraph fixtureCohort "HP:0002011" = 2 ∧
    get_term_count fixtureGraph fixtureCohort "HP:0000924" = 1 ∧
    get_term_count fixtureGraph fixtureCohort "HP:0000001" = 3 ∧
    calculate_information_content fixtureGraph fixtureCohort "HP:0000001" =
      ((0 : ℝ) : WithBot ℝ) ∧
    calculate_information_content fixtureGraph fixtureCohort "HP:0000924" =
      ((-Real.log (1 / 3) : ℝ) : WithBot ℝ) ∧
    calculate_information_content fixtureGraph fixtureCohort "HP:0000707" =
      ((-Real.log (2 / 3) : ℝ) : WithBot ℝ) ∧
    get_most_informative_ic fixtureGraph fixtureCohort "HP:0000707" "HP:0000924" =
      ((0 : ℝ) : WithBot ℝ) ∧
    get_most_informative_ic fixtureGraph fixtureCohort "HP:0000707" "HP:0002011" =
      ((-Real.log (2 / 3) : ℝ) : WithBot ℝ) ∧
    get_most_informative_ic fixtureGraph fixtureCohort "HP:0000924" "HP:0000924" =
      ((-Real.log (1 / 3) : ℝ) : WithBot ℝ) :=
  ⟨by decide, by decide, by decide, by decide, by decide,
    fixture_ic_root, fixture_ic_924, fixture_ic_707,
    fixture_gmi_707_924, fixture_gmi_707_2011, fixture_gmi_924_924⟩

theorem pySplit_no_sep (sep : Char) (l : List Char)
    (h : l.contains sep = false) : pySplit sep l = [l] := by
  induction l with
  | nil => rfl
  | cons c cs ih =>
      simp only [List.contains_cons, Bool.or_eq_false_iff] at h
      obtain ⟨hc, hcs⟩ := h
      have hne : ¬ c = sep := by
        intro hEq
        rw [hEq] at hc
        simp at hc
      rw [pySplit, if_neg hne, ih hcs]

/-- C9: format_hpo partitions its behaviour exactly by the "." sentinel: a
field whose stripped form is "." gives None; any other field gives the
list of "|"-separated components of the stripped field, which is the
one-element list of the stripped field itself when no "|" occurs — in
particular an empty or all-whitespace field gives the one-element list
containing the empty string, not None. -/
theorem format_hpo_dot_sentinel (s : List Char) :
    (pyStrip s = ['.'] → format_hpo s = none) ∧
    (pyStrip s ≠ ['.'] → format_hpo s = some (pySplit '|' (pyStrip s))) ∧
    (pyStrip s ≠ ['.'] → (pyStrip s).contains '|' = false →
      format_hpo s = some [pyStrip s]) ∧
    (pyStrip s = [] → format_hpo s = some [[]]) := by
  refine ⟨fun hdot => ?_, fun hne => ?_, fun hne hnc => ?_, fun hnil => ?_⟩
  · unfold format_hpo
    rw [if_pos hdot]
  · unfold format_hpo
    rw [if_neg hne]
    by_cases hc : (pyStrip s).contains '|' = true
    · rw [if_pos hc]
    · have hc' : (pyStrip s).contains '|' = false := by
        revert hc
        simp
      rw [if_neg hc, pySplit_no_sep _ _ hc']
  · unfold format_hpo
    rw [if_neg hne, if_neg (by rw [hnc]; exact Bool.false_ne_true)]
  · have hne : pyStrip s ≠ ['.'] := by simp [hnil]
    unfold format_hpo
    rw [if_neg hne, hnil, if_neg (by decide)]

theorem format_hpo_dot_sentinel_witness :
    (pyStrip [' ', '.'] = ['.'] ∧ format_hpo [' ', '.'] = none) ∧
    (format_hpo ['a', '|', 'b'] =
      some (pySplit '|' (pyStrip ['a', '|', 'b']))) ∧
    format_hpo [' '] = some [[]] :=
  ⟨⟨by decide, (format_hpo_dot_sentinel [' ', '.']).1 (by decide)⟩,
   (format_hpo_dot_sentinel ['a', '|', 'b']).2.1 (by decide),
   (format_hpo_dot_sentinel [' ']).2.2.2 (by decide)⟩

theorem mem_genes_index_add (st : CandidateGenes) (row : String × String × String)
    (g p i : String) :
    (p, i) ∈ (addCandidateRow st row).genes_index g ↔
      ((p, i) ∈ st.genes_index g ∨ (g = row.2.1 ∧ p = row.1 ∧ i = row.2.2)) := by
  unfold addCandidateRow
  by_cases hg : g = row.2.1
  · subst hg
    simp [Prod.ext_iff]
    tauto
  · simp [hg]

theorem mem_probands_index_add (st : CandidateGenes) (row : String × String × String)
    (g p i : String) :
    (g, i) ∈ (addCandidateRow st row).probands_index p ↔
      ((g, i) ∈ st.probands_index p ∨ (g = row.2.1 ∧ p = row.1 ∧ i = row.2.2)) := by
  unfold addCandidateRow
  by_cases hp : p = row.1
  · subst hp
    simp [Prod.ext_iff]
    tauto
  · simp [hp]

theorem cgInv_step (st : CandidateGenes) (row : String × String × String)
    (h : CGInv st) : CGInv (addCandidateRow st row) := by
  obtain ⟨h1, h2, h3⟩ := h
  refine ⟨fun g p i => ?_, fun g => ?_, fun p => ?_⟩
  · rw [mem_genes_index_add, mem_probands_index_add, h1 g p i]
  · by_cases hg : g = row.2.1 <;>
      simp [addCandidateRow, hg, h2 g, Finset.insert_nonempty]
  · by_cases hp : p = row.1 <;>
      simp [addCandidateRow, hp, h3 p, Finset.insert_nonempty]

theorem cgInv_foldl (rows : List (String × String × String))
    (st : CandidateGenes) (h : CGInv st) :
    CGInv (rows.foldl addCandidateRow st) := by
  induction rows generalizing st with
  | nil => exact h
  | cons row rest ih => exact ih _ (cgInv_step st row h)

/-- C10: the two dictionaries returned by load_candidate_genes are inverse
views of the same relation — (p, i) lies in genes_index[g] exactly when
(g, i) lies in probands_index[p] — and every key of either dictionary maps
to a non-empty set. -/
theorem load_candidate_genes_inverse (rows : List (String × String × String)) :
    (∀ g p i, (p, i) ∈ (load_candidate_genes rows).genes_index g ↔
      (g, i) ∈ (load_candidate_genes rows).probands_index p) ∧
    (∀ g ∈ (load_candidate_genes rows).genes_keys,
      ((load_candidate_genes rows).genes_index g).Nonempty) ∧
    (∀ p ∈ (load_candidate_genes rows).probands_keys,
      ((load_candidate_genes rows).probands_index p).Nonempty) := by
  have base : CGInv ⟨∅, ∅, fun _ => ∅, fun _ => ∅⟩ := by
    refine ⟨fun g p i => ?_, fun g => ?_, fun p => ?_⟩ <;> simp
  obtain ⟨h1, h2, h3⟩ := cgInv_foldl rows _ base
  exact ⟨h1, fun g hg => (h2 g).2 hg, fun p hp => (h3 p).2 hp⟩

theorem load_candidate_genes_inverse_witness :
    (("p1", "dom") ∈
        (load_candidate_genes [("p1", "g1", "dom")]).genes_index "g1" ↔
      ("g1", "dom") ∈
        (load_candidate_genes [("p1", "g1", "dom")]).probands_index "p1") ∧
    ((load_candidate_genes [("p1", "g1", "dom")]).genes_index "g1").Nonempty ∧
    ((load_candidate_genes [("p1", "g1", "dom")]).probands_index "p1").Nonempty :=
  ⟨(load_candidate_genes_inverse [("p1", "g1", "dom")]).1 "g1" "p1" "dom",
   (load_candidate_genes_inverse [("p1", "g1", "dom")]).2.1 "g1" (by decide),
   (load_candidate_genes_inverse [("p1", "g1", "dom")]).2.2 "p1" (by decide)⟩
